import Mathlib

/-!
Verification development for the hti-cnn training driver (src/main.py).

The file shallowly embeds the control flow of `main` (epoch loop, ensemble
checkpoint scheduling, the `try/finally` abort handling), the aggregation and
AUC computation of `validate`, and the cyclic-annealing learning rate used by
`train`.  Effects on the session object (checkpoint saves, model
re-initialisation, summary writers) are recorded as an explicit event trace;
Python runtime errors (NameError on unbound locals, ZeroDivisionError,
a propagating exception such as KeyboardInterrupt) are modelled explicitly.
-/

set_option autoImplicit false

/-- The `ensemble_properties` dictionary of the session, when non-empty
(src/main.py lines 61-72, 92-107).  A missing `ensemble_type` key is modelled
by a string that is neither recognised name. -/
structure EnsembleProps where
  ensemble_type : String
  ensemble_size : Nat
  cycle_length : Nat

/-- The inputs `main` reads from the session and configuration, together with
the external behaviours the loop consumes: `perf e` is the value returned by
`eval_val` at epoch `e`, and `interrupt = some e` models an exception
(for instance a keyboard interrupt) raised while the body of epoch `e` runs. -/
structure MainCfg where
  ensemble_properties : Option EnsembleProps
  training_epochs : Nat
  start_epoch : Nat
  best_performance : ℚ
  has_val : Bool
  perf : Nat → ℚ
  interrupt : Option Nat
  summaryNames : List String

/-- Observable session effects of `main` (src/main.py lines 77-118). -/
inductive Event where
  | train (epoch : Nat)
  | saveCheckpoint (performance : ℚ) (is_best : Bool)
  | saveEnsembleCheckpoint (performance : ℚ) (m : Nat)
  | reInitialiseModel
  | saveAbortCheckpoint (performance : ℚ) (is_best : Bool)
  | exportScalars (name : String)
  | closeSummary (name : String)
deriving DecidableEq

/-- Python runtime errors that can escape `main`. -/
inductive PyError where
  | nameError (ident : String)
  | zeroDivisionError
  | interrupted
deriving DecidableEq

/-- Local variables of `main` threaded through the epoch loop.  `perfBound`
and `epochBound` model whether the Python locals `performance` and `epoch`
have been assigned yet (`none` = unbound, reference raises NameError). -/
structure LoopSt where
  best : ℚ
  m : Nat
  perfBound : Option ℚ
  epochBound : Option Nat

/-- `[cycle_length * cp for cp in range(1, ensemble_size + 1)]`
(src/main.py line 96). -/
def checkpointsList (cycle_length ensemble_size : Nat) : List Nat :=
  (List.range' 1 ensemble_size).map fun cp => cycle_length * cp

/-- One iteration of the epoch loop of `main` (src/main.py lines 77-107):
train, then (when a validation split exists) evaluate and save a checkpoint
updating the best performance, then at ensemble cycle boundaries save the
m-th ensemble member and for deep ensembles re-initialise the model. -/
def epochBody (cfg : MainCfg) (epoch : Nat) (st : LoopSt) :
    List Event × LoopSt × Option PyError :=
  let st := { st with epochBound := some epoch }
  if cfg.interrupt = some epoch then
    ([], st, some PyError.interrupted)
  else
    let evTrain := [Event.train epoch]
    let p := (evTrain, st)
    let p :=
      if cfg.has_val then
        let performance := cfg.perf epoch
        let is_best := decide (performance > st.best)
        (evTrain ++ [Event.saveCheckpoint performance is_best],
         { st with best := max performance st.best, perfBound := some performance })
      else p
    let evs := p.1
    let st := p.2
    match cfg.ensemble_properties with
    | some ep =>
      if ep.ensemble_type = "deep_ensemble" ∨ ep.ensemble_type = "snapshot_ensemble" then
        if (epoch + 1) ∈ checkpointsList ep.cycle_length ep.ensemble_size then
          match st.perfBound with
          | none => (evs, st, some (PyError.nameError "performance"))
          | some perfv =>
            let evs := evs ++ [Event.saveEnsembleCheckpoint perfv st.m]
            let st := { st with m := st.m + 1 }
            if ep.ensemble_type = "deep_ensemble" then
              (evs ++ [Event.reInitialiseModel], st, none)
            else (evs, st, none)
        else (evs, st, none)
      else (evs, st, none)
    | none => (evs, st, none)

/-- The epoch loop `for epoch in range(s, s + fuel)` run from state `st`,
stopping early when an iteration raises. -/
def runEpochs (cfg : MainCfg) : Nat → Nat → LoopSt → List Event × LoopSt × Option PyError
  | _, 0, st => ([], st, none)
  | e, fuel + 1, st =>
    match epochBody cfg e st with
    | (evs, st', some er) => (evs, st', some er)
    | (evs, st', none) =>
      match runEpochs cfg (e + 1) fuel st' with
      | (evs2, st'', err2) => (evs ++ evs2, st'', err2)

/-- Locals of `main` before the `try` block runs. -/
def initLoopSt (cfg : MainCfg) : LoopSt :=
  ⟨cfg.best_performance, 0, none, none⟩

/-- The `try` block of `main` (src/main.py lines 60-107): compute
`total_epochs` (NameError escaping when `ensemble_properties` is non-empty
with an unrecognised `ensemble_type`; `int(start_epoch/cycle_length)` raises
ZeroDivisionError when `cycle_length` is 0), then run the epoch loop. -/
def mainBody (cfg : MainCfg) : List Event × LoopSt × Option PyError :=
  match cfg.ensemble_properties with
  | some ep =>
    if ep.ensemble_type = "deep_ensemble" ∨ ep.ensemble_type = "snapshot_ensemble" then
      if ep.cycle_length = 0 then
        ([], initLoopSt cfg, some PyError.zeroDivisionError)
      else
        runEpochs cfg cfg.start_epoch (ep.ensemble_size * ep.cycle_length - cfg.start_epoch)
          { initLoopSt cfg with m := cfg.start_epoch / ep.cycle_length }
    else ([], initLoopSt cfg, some (PyError.nameError "total_epochs"))
  | none =>
    runEpochs cfg cfg.start_epoch (cfg.training_epochs - cfg.start_epoch) (initLoopSt cfg)

/-- The value of the local `total_epochs` after the assignments at
src/main.py lines 65 and 75, `none` when it is never assigned. -/
def mainTotal (cfg : MainCfg) : Option Nat :=
  match cfg.ensemble_properties with
  | some ep =>
    if ep.ensemble_type = "deep_ensemble" ∨ ep.ensemble_type = "snapshot_ensemble" then
      some (ep.ensemble_size * ep.cycle_length)
    else none
  | none => some cfg.training_epochs

/-- The `finally` block of `main` (src/main.py lines 109-118): evaluate
`(epoch + 1) != total_epochs` (raising NameError on an unbound local,
`epoch` being read first), save the `user_abort.pth.tar` checkpoint with
performance -1 and `is_best` False when the test holds, then export every
summary writer's scalars to JSON and close it. -/
def mainFinally (cfg : MainCfg) (epochB totalB : Option Nat) :
    List Event × Option PyError :=
  match epochB with
  | none => ([], some (PyError.nameError "epoch"))
  | some e =>
    match totalB with
    | none => ([], some (PyError.nameError "total_epochs"))
    | some T =>
      let evAbort := if e + 1 ≠ T then [Event.saveAbortCheckpoint (-1) false] else []
      let evClose := cfg.summaryNames.flatMap fun n => [Event.exportScalars n, Event.closeSummary n]
      (evAbort ++ evClose, none)

/-- `main`'s `try/finally` (src/main.py lines 60-118): the finally block
always runs; an error it raises replaces the body's error, otherwise the
body's error (if any) propagates. -/
def mainRun (cfg : MainCfg) : List Event × Option PyError :=
  match mainBody cfg with
  | (tr, st, bodyErr) =>
    match mainFinally cfg st.epochBound (mainTotal cfg) with
    | (tr2, finErr) =>
      (tr ++ tr2, match finErr with | some er => some er | none => bodyErr)

/-- Trace projection: epochs for which `train` was called. -/
def isTrain : Event → Option Nat
  | Event.train e => some e
  | _ => none

def trainedEpochs (tr : List Event) : List Nat := tr.filterMap isTrain

/-- Trace projection: the member indices `m` of ensemble checkpoint saves. -/
def isEnsembleM : Event → Option Nat
  | Event.saveEnsembleCheckpoint _ m => some m
  | _ => none

def ensembleMs (tr : List Event) : List Nat := tr.filterMap isEnsembleM

/-- Trace projection: `(performance, is_best)` of regular checkpoint saves. -/
def isSavedCk : Event → Option (ℚ × Bool)
  | Event.saveCheckpoint p b => some (p, b)
  | _ => none

def savedCheckpoints (tr : List Event) : List (ℚ × Bool) := tr.filterMap isSavedCk

/-- The running best performance just before epoch `e + k`, starting from
best `b` at epoch `e` (src/main.py line 87 folds `max` over the validation
performances of epochs `e, e+1, ..., e+k-1`). -/
def bestAfter (perf : Nat → ℚ) : Nat → ℚ → Nat → ℚ
  | _, b, 0 => b
  | e, b, k + 1 => bestAfter perf (e + 1) (max (perf e) b) k

/-- `ensemble_properties` is empty or names a recognised ensemble type. -/
def ensembleOk (cfg : MainCfg) : Prop :=
  match cfg.ensemble_properties with
  | none => True
  | some ep =>
    ep.ensemble_type = "deep_ensemble" ∨ ep.ensemble_type = "snapshot_ensemble"

/-- Python `key.split("-")` on the character list: split at every dash,
keeping empty tokens (so `"" ↦ [""]`, `"a--b" ↦ ["a", "", "b"]`). -/
def splitOnDash : List Char → List (List Char)
  | [] => [[]]
  | c :: cs =>
    let r := splitOnDash cs
    if c = '-' then [] :: r
    else
      match r with
      | [] => [[c]]
      | t :: ts => (c :: t) :: ts

/-- Python `"-".join(tokens)` on character lists. -/
def joinDash : List (List Char) → List Char
  | [] => []
  | [t] => t
  | t :: ts => t ++ '-' :: joinDash ts

/-- `"-".join(key.split("-")[0:2])` (src/main.py lines 252 and 256). -/
def validate_groupKey (key : String) : String :=
  String.mk (joinDash ((splitOnDash key.data).take 2))

/-- Append value `v` to the group of key `k`, creating the group at the end
when absent (the grouping step of `DataFrame.groupby`). -/
def upsertGroup {α : Type} (acc : List (String × List α)) (k : String) (v : α) :
    List (String × List α) :=
  match acc with
  | [] => [(k, [v])]
  | (k', vs) :: rest =>
    if k' = k then (k', vs ++ [v]) :: rest else (k', vs) :: upsertGroup rest k v

/-- Group the indexed rows by the transformed key `gk`. -/
def groupPairs {α : Type} (gk : String → String) (pairs : List (String × α)) :
    List (String × List α) :=
  pairs.foldl (fun acc p => upsertGroup acc (gk p.1) p.2) []

/-- The value list of key `k` in a grouped association list. -/
def gvalues {α : Type} (l : List (String × List α)) (k : String) : List α :=
  match l.find? (fun g => decide (g.1 = k)) with
  | some g => g.2
  | none => []

/-- Lexicographic string comparison on character lists (Python string `<=`,
comparing code points). -/
def keyLeb : List Char → List Char → Bool
  | [], _ => true
  | _ :: _, [] => false
  | a :: as, b :: bs => if a = b then keyLeb as bs else decide (a < b)

/-- Ordering of grouped rows by their key (`sort_index`). -/
def keyOrd (a b : String × List ℚ) : Prop := keyLeb a.1.data b.1.data = true

instance : DecidableRel keyOrd :=
  fun a b => inferInstanceAs (Decidable (keyLeb a.1.data b.1.data = true))

def sortPairs (l : List (String × List ℚ)) : List (String × List ℚ) :=
  List.insertionSort keyOrd l

/-- Elementwise sum of equal-length rows. -/
def sumRows : List (List ℚ) → List ℚ
  | [] => []
  | [r] => r
  | r :: rs => List.zipWith (· + ·) r (sumRows rs)

/-- Elementwise arithmetic mean of a group of rows (`groupby(...).mean()`). -/
def meanRows (rs : List (List ℚ)) : List ℚ :=
  (sumRows rs).map fun x => x / (rs.length : ℚ)

/-- `df.groupby(by=lambda key: "-".join(key.split("-")[0:2])).mean().sort_index()`
(src/main.py line 252). -/
def validate_group_mean (pairs : List (String × List ℚ)) : List (String × List ℚ) :=
  sortPairs ((groupPairs validate_groupKey pairs).map fun g => (g.1, meanRows g.2))

/-- `df.groupby(by=lambda key: "-".join(key.split("-")[0:2])).first().sort_index()`
(src/main.py line 256). -/
def validate_group_first (pairs : List (String × List ℚ)) : List (String × List ℚ) :=
  sortPairs ((groupPairs validate_groupKey pairs).map fun g => (g.1, g.2.headD []))

/-- `np.where(col == v)[0]`: indices with value `v`, in increasing order. -/
def validate_whereEq (xs : List ℚ) (v : ℚ) : List Nat :=
  (List.range xs.length).filter fun j => decide (xs.getD j 0 = v)

/-- `list(np.where(col == 0)[0]) + list(np.where(col == 1)[0])`
(src/main.py line 269). -/
def validate_aucSamples (tcol : List ℚ) : List Nat :=
  validate_whereEq tcol 0 ++ validate_whereEq tcol 1

/-- Column `i` of a row-major matrix (`arr[:, i]`). -/
def colAt (rows : List (List ℚ)) (i : Nat) : List ℚ :=
  rows.map fun row => row.getD i 0

/-- The per-class AUC of src/main.py lines 266-275.  `roc` abstracts
`sklearn.metrics.roc_auc_score` on `(y_true, y_score)`, returning
`Except.error` when it raises ValueError. -/
def validate_classAuc (roc : List ℚ → List ℚ → Except Unit ℚ)
    (targets predictions : List (List ℚ)) (i : Nat) : ℚ :=
  let tcol := colAt targets i
  let pcol := colAt predictions i
  if (tcol.any fun x => decide (x = 0)) && (tcol.any fun x => decide (x = 1)) then
    let samples := validate_aucSamples tcol
    match roc (samples.map fun j => tcol.getD j 0) (samples.map fun j => pcol.getD j 0) with
    | Except.ok v => v
    | Except.error _ => 1 / 2
  else 1 / 2

/-- The `class_aucs` list built by the loop at src/main.py lines 265-275. -/
def validate_classAucs (roc : List ℚ → List ℚ → Except Unit ℚ)
    (targets predictions : List (List ℚ)) (n_tasks : Nat) : List ℚ :=
  (List.range n_tasks).map (validate_classAuc roc targets predictions)

/-- `targets[...] = target_tasks / 2 + 0.5` (src/main.py line 232): the raw
-1/+1 targets rescaled to 0/1 before storing. -/
def validate_storeTargets (raw : List (List ℚ)) : List (List ℚ) :=
  raw.map fun row => row.map fun t => t / 2 + 1 / 2

/-- Modelled from the spec: `adjust_cyclic_annealing_lr` is a method of the
`PyLL` session, which is repository code not under src/ (only its call in
`train` at src/main.py line 135 is).  The spec describes snapshot-ensemble
training via "cyclic learning-rate annealing" in which the "cyclic learning
rate returns to its initial value at the start of each cycle": the standard
cosine annealing schedule, periodic with period `cycle_length`,
`lr(epoch) = initial_lr/2 * (cos(pi * (epoch mod cycle_length) / cycle_length) + 1)`. -/
noncomputable def adjust_cyclic_annealing_lr (epoch : Nat) (initial_lr : ℝ)
    (cycle_length : Nat) : ℝ :=
  initial_lr / 2 *
    (Real.cos (Real.pi * ((epoch % cycle_length : Nat) : ℝ) / (cycle_length : ℝ)) + 1)

/-- A run with no validation split interrupted during its final epoch. -/
def cfgAbortLast : MainCfg :=
  { ensemble_properties := none, training_epochs := 1, start_epoch := 0,
    best_performance := 0, has_val := false, perf := fun _ => 0,
    interrupt := some 0, summaryNames := ["train"] }

/-- A two-epoch run interrupted during its first epoch. -/
def cfgAbortMid : MainCfg :=
  { ensemble_properties := none, training_epochs := 2, start_epoch := 0,
    best_performance := 0, has_val := true, perf := fun e => (e : ℚ),
    interrupt := some 0, summaryNames := ["train", "val"] }

/-- A snapshot-ensemble run of 2 cycles of length 2. -/
def cfgSnapshot : MainCfg :=
  { ensemble_properties := some ⟨"snapshot_ensemble", 2, 2⟩,
    training_epochs := 0, start_epoch := 0,
    best_performance := 0, has_val := true, perf := fun e => (e : ℚ),
    interrupt := none, summaryNames := ["train", "val"] }

/-- A deep-ensemble run of 2 cycles of length 2. -/
def cfgDeep : MainCfg :=
  { ensemble_properties := some ⟨"deep_ensemble", 2, 2⟩,
    training_epochs := 0, start_epoch := 0,
    best_performance := 0, has_val := true, perf := fun e => (e : ℚ),
    interrupt := none, summaryNames := ["train", "val"] }

/-- A run whose non-empty `ensemble_properties` has an unrecognised type. -/
def cfgUnrec : MainCfg :=
  { ensemble_properties := some ⟨"bogus", 2, 2⟩,
    training_epochs := 7, start_epoch := 0,
    best_performance := 0, has_val := true, perf := fun _ => 1,
    interrupt := none, summaryNames := ["train"] }

/-- A plain non-ensemble run that completes normally. -/
def cfgPlain : MainCfg :=
  { ensemble_properties := none, training_epochs := 2, start_epoch := 0,
    best_performance := 0, has_val := true, perf := fun e => (e : ℚ),
    interrupt := none, summaryNames := ["train", "val"] }

example :
    mainRun
      { ensemble_properties := none, training_epochs := 1, start_epoch := 0,
        best_performance := 0, has_val := false, perf := fun _ => 0,
        interrupt := some 0, summaryNames := ["train"] } =
      ([Event.exportScalars "train", Event.closeSummary "train"],
       some PyError.interrupted) := by decide

example :
    mainRun
      { ensemble_properties := none, training_epochs := 2, start_epoch := 0,
        best_performance := 0, has_val := true, perf := fun e => (e : ℚ),
        interrupt := none, summaryNames := [] } =
      ([Event.train 0, Event.saveCheckpoint 0 false,
        Event.train 1, Event.saveCheckpoint 1 true], none) := by decide

example :
    mainRun
      { ensemble_properties := some ⟨"snapshot_ensemble", 2, 2⟩,
        training_epochs := 0, start_epoch := 0,
        best_performance := 0, has_val := true, perf := fun _ => 1,
        interrupt := none, summaryNames := [] } =
      ([Event.train 0, Event.saveCheckpoint 1 true,
        Event.train 1, Event.saveCheckpoint 1 false,
        Event.saveEnsembleCheckpoint 1 0,
        Event.train 2, Event.saveCheckpoint 1 false,
        Event.train 3, Event.saveCheckpoint 1 false,
        Event.saveEnsembleCheckpoint 1 1], none) := by decide

example :
    mainRun
      { ensemble_properties := some ⟨"bogus", 2, 2⟩,
        training_epochs := 7, start_epoch := 0,
        best_performance := 0, has_val := true, perf := fun _ => 1,
        interrupt := none, summaryNames := ["train"] } =
      ([], some (PyError.nameError "epoch")) := by decide

/-! ### Key-order lemmas -/

theorem keyLeb_total (as : List Char) : ∀ bs, keyLeb as bs = true ∨ keyLeb bs as = true := by
  induction as with
  | nil => intro bs; left; rfl
  | cons a as ih =>
    intro bs
    cases bs with
    | nil => right; rfl
    | cons b bs =>
      rcases lt_trichotomy a b with h | h | h
      · left
        simp only [keyLeb, if_neg (ne_of_lt h), decide_eq_true_eq]
        exact h
      · subst h
        simp only [keyLeb, if_pos rfl]
        exact ih bs
      · right
        simp only [keyLeb, if_neg (ne_of_gt h).symm, decide_eq_true_eq]
        exact h

theorem keyLeb_trans (as : List Char) :
    ∀ bs cs, keyLeb as bs = true → keyLeb bs cs = true → keyLeb as cs = true := by
  induction as with
  | nil => intro bs cs _ _; rfl
  | cons a as ih =>
    intro bs cs h1 h2
    cases bs with
    | nil => simp [keyLeb] at h1
    | cons b bs =>
      cases cs with
      | nil => simp [keyLeb] at h2
      | cons c cs =>
        simp only [keyLeb] at h1 h2 ⊢
        by_cases hab : a = b
        · subst hab
          simp only [if_pos rfl] at h1
          by_cases hbc : a = c
          · subst hbc
            simp only [if_pos rfl] at h2 ⊢
            exact ih bs cs h1 h2
          · simp only [if_neg hbc] at h2 ⊢
            exact h2
        · simp only [if_neg hab, decide_eq_true_eq] at h1
          by_cases hbc : b = c
          · subst hbc
            simp only [if_neg hab, decide_eq_true_eq]
            exact h1
          · simp only [if_neg hbc, decide_eq_true_eq] at h2
            have hac : a < c := lt_trans h1 h2
            simp only [if_neg (ne_of_lt hac), decide_eq_true_eq]
            exact hac

theorem keyLeb_le (as : List Char) :
    ∀ bs, keyLeb as bs = true → String.mk as ≤ String.mk bs := by
  induction as with
  | nil =>
    intro bs _
    rw [String.le_iff_toList_le]
    exact List.nil_le
  | cons a as ih =>
    intro bs h
    cases bs with
    | nil => simp [keyLeb] at h
    | cons b bs =>
      rw [String.le_iff_toList_le]
      refine le_of_not_lt fun hlt => ?_
      have hlt' : List.Lex (· < ·) (b :: bs) (a :: as) := hlt
      simp only [keyLeb] at h
      cases hlt' with
      | cons htail =>
        rw [if_pos rfl] at h
        have h2 := ih bs h
        rw [String.le_iff_toList_le] at h2
        have hlt2 : ({ data := bs } : String).toList < ({ data := as } : String).toList := htail
        exact absurd h2 (not_le_of_lt hlt2)
      | rel hba =>
        rw [if_neg (ne_of_gt hba)] at h
        exact absurd (of_decide_eq_true h) (lt_asymm hba)

/-! ### Grouping lemmas -/

theorem gvalues_upsertGroup {α : Type} (acc : List (String × List α)) (k : String) (v : α)
    (k' : String) :
    gvalues (upsertGroup acc k v) k' =
      if k' = k then gvalues acc k' ++ [v] else gvalues acc k' := by
  induction acc with
  | nil =>
    by_cases h : k' = k
    · subst h; simp [upsertGroup, gvalues]
    · simp [upsertGroup, gvalues, h, Ne.symm h]
  | cons g rest ih =>
    obtain ⟨kg, vs⟩ := g
    by_cases hk : kg = k
    · subst hk
      by_cases h : k' = kg
      · subst h; simp [upsertGroup, gvalues]
      · simp [upsertGroup, gvalues, h, Ne.symm h]
    · by_cases h : k' = kg
      · subst h
        simp only [upsertGroup, if_neg hk]
        simp [gvalues, if_neg hk, hk]
      · simp only [upsertGroup, if_neg hk]
        simp only [gvalues, List.find?] at ih ⊢
        rw [show (decide (kg = k')) = false from decide_eq_false (fun hh => h hh.symm)] at *
        simpa using ih

theorem gvalues_groupPairs_aux {α : Type} (gk : String → String)
    (ps : List (String × α)) :
    ∀ (acc : List (String × List α)) (k : String),
      gvalues (ps.foldl (fun acc p => upsertGroup acc (gk p.1) p.2) acc) k =
        gvalues acc k ++ (ps.filter fun p => decide (gk p.1 = k)).map Prod.snd := by
  induction ps with
  | nil => intro acc k; simp
  | cons p ps ih =>
    intro acc k
    simp only [List.foldl_cons, List.filter_cons]
    rw [ih]
    by_cases h : gk p.1 = k
    · rw [gvalues_upsertGroup, if_pos h.symm]
      simp [h]
    · rw [gvalues_upsertGroup, if_neg (fun hh => h hh.symm)]
      simp [h]

theorem gvalues_groupPairs {α : Type} (gk : String → String) (pairs : List (String × α))
    (k : String) :
    gvalues (groupPairs gk pairs) k = (pairs.filter fun p => decide (gk p.1 = k)).map Prod.snd := by
  have := gvalues_groupPairs_aux gk pairs [] k
  simpa [groupPairs, gvalues] using this

theorem fst_upsertGroup {α : Type} (acc : List (String × List α)) (k : String) (v : α) :
    (upsertGroup acc k v).map Prod.fst =
      if k ∈ acc.map Prod.fst then acc.map Prod.fst else acc.map Prod.fst ++ [k] := by
  induction acc with
  | nil => simp [upsertGroup]
  | cons g rest ih =>
    obtain ⟨kg, vs⟩ := g
    by_cases hk : kg = k
    · subst hk
      simp [upsertGroup]
    · simp only [upsertGroup, if_neg hk, List.map_cons, List.mem_cons]
      rw [ih]
      by_cases hm : k ∈ rest.map Prod.fst
      · rw [if_pos hm, if_pos (Or.inr hm)]
      · rw [if_neg hm, if_neg (by rintro (h | h); exact hk h.symm; exact hm h)]
        simp

theorem mem_fst_upsertGroup {α : Type} (acc : List (String × List α)) (k : String) (v : α)
    (k' : String) :
    k' ∈ (upsertGroup acc k v).map Prod.fst ↔ k' ∈ acc.map Prod.fst ∨ k' = k := by
  rw [fst_upsertGroup]
  by_cases hm : k ∈ acc.map Prod.fst
  · rw [if_pos hm]
    constructor
    · exact Or.inl
    · rintro (h | h)
      · exact h
      · exact h ▸ hm
  · rw [if_neg hm]
    simp

theorem nodup_fst_upsertGroup {α : Type} (acc : List (String × List α)) (k : String) (v : α)
    (h : (acc.map Prod.fst).Nodup) : ((upsertGroup acc k v).map Prod.fst).Nodup := by
  rw [fst_upsertGroup]
  by_cases hm : k ∈ acc.map Prod.fst
  · rw [if_pos hm]; exact h
  · rw [if_neg hm]
    simp only [List.nodup_append, List.nodup_cons, List.not_mem_nil, not_false_iff,
      List.nodup_nil, and_true, true_and]
    constructor
    · exact h
    · intro a ha
      simp only [List.mem_singleton]
      intro hh
      exact hm (hh ▸ ha)

theorem nodup_fst_groupPairs {α : Type} (gk : String → String) (pairs : List (String × α)) :
    ((groupPairs gk pairs).map Prod.fst).Nodup := by
  suffices H : ∀ acc : List (String × List α), (acc.map Prod.fst).Nodup →
      ((pairs.foldl (fun acc p => upsertGroup acc (gk p.1) p.2) acc).map Prod.fst).Nodup by
    exact H [] (by simp)
  induction pairs with
  | nil => intro acc h; simpa using h
  | cons p ps ih =>
    intro acc h
    exact ih (upsertGroup acc (gk p.1) p.2) (nodup_fst_upsertGroup acc (gk p.1) p.2 h)

theorem mem_fst_groupPairs {α : Type} (gk : String → String) (pairs : List (String × α))
    (k : String) :
    k ∈ (groupPairs gk pairs).map Prod.fst ↔ ∃ p ∈ pairs, gk p.1 = k := by
  suffices H : ∀ acc : List (String × List α),
      (k ∈ (pairs.foldl (fun acc p => upsertGroup acc (gk p.1) p.2) acc).map Prod.fst ↔
        k ∈ acc.map Prod.fst ∨ ∃ p ∈ pairs, gk p.1 = k) by
    have := H []
    simpa [groupPairs] using this
  induction pairs with
  | nil => intro acc; simp
  | cons p ps ih =>
    intro acc
    simp only [List.foldl_cons]
    rw [ih]
    rw [mem_fst_upsertGroup]
    constructor
    · rintro ((h | h) | h)
      · exact Or.inl h
      · exact Or.inr ⟨p, by simp, h.symm⟩
      · obtain ⟨q, hq, hgk⟩ := h
        exact Or.inr ⟨q, by simp [hq], hgk⟩
    · rintro (h | h)
      · exact Or.inl (Or.inl h)
      · obtain ⟨q, hq, hgk⟩ := h
        rcases List.mem_cons.mp hq with rfl | hq'
        · exact Or.inl (Or.inr hgk.symm)
        · exact Or.inr ⟨q, hq', hgk⟩

theorem find?_eq_of_mem_of_nodup {α : Type} (l : List (String × List α))
    (hnd : (l.map Prod.fst).Nodup) (g : String × List α) (hg : g ∈ l) :
    l.find? (fun x => decide (x.1 = g.1)) = some g := by
  induction l with
  | nil => cases hg
  | cons h t ih =>
    rcases List.mem_cons.mp hg with rfl | hg'
    · simp [List.find?]
    · simp only [List.map_cons, List.nodup_cons] at hnd
      have hne : h.1 ≠ g.1 := by
        intro he
        exact hnd.1 (he ▸ List.mem_map_of_mem Prod.fst hg')
      simp only [List.find?, decide_eq_false hne]
      exact ih hnd.2 hg'

theorem gvalues_of_mem_groupPairs {α : Type} (gk : String → String)
    (pairs : List (String × α)) (g : String × List α) (hg : g ∈ groupPairs gk pairs) :
    g.2 = (pairs.filter fun p => decide (gk p.1 = g.1)).map Prod.snd := by
  rw [← gvalues_groupPairs]
  unfold gvalues
  rw [find?_eq_of_mem_of_nodup _ (nodup_fst_groupPairs gk pairs) g hg]

/-! ### Mean and sorting lemmas -/

theorem getD_zipWith_add (xs : List ℚ) :
    ∀ (ys : List ℚ) (j : Nat), j < xs.length → j < ys.length →
      (List.zipWith (· + ·) xs ys).getD j 0 = xs.getD j 0 + ys.getD j 0 := by
  induction xs with
  | nil => intro ys j h _; cases h
  | cons x xs ih =>
    intro ys j hx hy
    cases ys with
    | nil => cases hy
    | cons y ys =>
      cases j with
      | zero => simp
      | succ j =>
        simp only [List.zipWith_cons_cons, List.getD_cons_succ]
        exact ih ys j (Nat.lt_of_succ_lt_succ hx) (Nat.lt_of_succ_lt_succ hy)

theorem length_sumRows (rs : List (List ℚ)) (L : Nat) (h : ∀ r ∈ rs, r.length = L)
    (hne : rs ≠ []) : (sumRows rs).length = L := by
  induction rs with
  | nil => cases hne rfl
  | cons r rs ih =>
    cases rs with
    | nil => simpa [sumRows] using h r (by simp)
    | cons r2 rs2 =>
      show (List.zipWith (· + ·) r (sumRows (r2 :: rs2))).length = L
      rw [List.length_zipWith, ih (fun x hx => h x (by simp [hx])) (by simp),
        h r (by simp)]
      simp

theorem getD_sumRows (rs : List (List ℚ)) (L : Nat) (j : Nat) (h : ∀ r ∈ rs, r.length = L)
    (hj : j < L) : (sumRows rs).getD j 0 = (rs.map fun r => r.getD j 0).sum := by
  induction rs with
  | nil => simp [sumRows]
  | cons r rs ih =>
    cases rs with
    | nil => simp [sumRows]
    | cons r2 rs2 =>
      show (List.zipWith (· + ·) r (sumRows (r2 :: rs2))).getD j 0 = _
      rw [getD_zipWith_add r (sumRows (r2 :: rs2)) j
        (by rw [h r (by simp)]; exact hj)
        (by rw [length_sumRows (r2 :: rs2) L (fun x hx => h x (by simp [hx])) (by simp)]; exact hj)]
      rw [ih (fun x hx => h x (by simp [hx]))]
      simp

theorem getD_meanRows (rs : List (List ℚ)) (L : Nat) (j : Nat) (h : ∀ r ∈ rs, r.length = L)
    (hj : j < L) :
    (meanRows rs).getD j 0 = (rs.map fun r => r.getD j 0).sum / (rs.length : ℚ) := by
  cases rs with
  | nil => simp [meanRows, sumRows]
  | cons r rs =>
    unfold meanRows
    have hlen : j < (sumRows (r :: rs)).length := by
      rw [length_sumRows (r :: rs) L h (by simp)]; exact hj
    rw [List.getD_eq_getElem?_getD, List.getElem?_map,
      List.getElem?_eq_getElem hlen]
    simp only [Option.map_some', Option.getD_some]
    rw [← List.getD_eq_getElem _ 0 hlen]
    rw [getD_sumRows (r :: rs) L j h hj]

theorem mem_sortPairs (p : String × List ℚ) (l : List (String × List ℚ)) :
    p ∈ sortPairs l ↔ p ∈ l :=
  (List.perm_insertionSort keyOrd l).mem_iff

theorem sorted_sortPairs (l : List (String × List ℚ)) :
    List.Sorted (fun a b : String × List ℚ => a.1 ≤ b.1) (sortPairs l) := by
  haveI htot : IsTotal (String × List ℚ) keyOrd :=
    ⟨fun a b => keyLeb_total a.1.data b.1.data⟩
  haveI htrans : IsTrans (String × List ℚ) keyOrd :=
    ⟨fun a b c hab hbc => keyLeb_trans a.1.data b.1.data c.1.data hab hbc⟩
  exact List.Pairwise.imp (fun h => keyLeb_le _ _ h) (List.sorted_insertionSort keyOrd l)

/-- C5: In `validate`, per-sample rows are grouped under the key obtained by
joining the first two dash-separated tokens of each sample ID with a dash;
for every such group the aggregated prediction row is the arithmetic mean of
the group's prediction rows and the aggregated target row is the first
target row of the group; the aggregated groups are exactly the occurring
keys, and the resulting groups are sorted by key. -/
theorem claim_C5 (pairs : List (String × List ℚ)) :
    List.Sorted (fun a b : String × List ℚ => a.1 ≤ b.1) (validate_group_mean pairs) ∧
    List.Sorted (fun a b : String × List ℚ => a.1 ≤ b.1) (validate_group_first pairs) ∧
    (∀ k r, (k, r) ∈ validate_group_mean pairs →
      r = meanRows ((pairs.filter fun p => decide (validate_groupKey p.1 = k)).map Prod.snd)) ∧
    (∀ k r, (k, r) ∈ validate_group_first pairs →
      r = ((pairs.filter fun p => decide (validate_groupKey p.1 = k)).map Prod.snd).headD []) ∧
    (∀ k, (∃ r, (k, r) ∈ validate_group_mean pairs) ↔ ∃ p ∈ pairs, validate_groupKey p.1 = k) ∧
    (∀ (rs : List (List ℚ)) (L j : Nat), (∀ r ∈ rs, r.length = L) → j < L →
      (meanRows rs).getD j 0 = (rs.map fun r => r.getD j 0).sum / (rs.length : ℚ)) := by
  refine ⟨sorted_sortPairs _, sorted_sortPairs _, ?_, ?_, ?_, ?_⟩
  · intro k r hmem
    simp only [validate_group_mean] at hmem
    rw [mem_sortPairs] at hmem
    obtain ⟨g, hg, heq⟩ := List.mem_map.mp hmem
    have hk : g.1 = k := congrArg Prod.fst heq
    have hr : meanRows g.2 = r := congrArg Prod.snd heq
    rw [← hr, ← hk]
    exact congrArg meanRows (gvalues_of_mem_groupPairs validate_groupKey pairs g hg)
  · intro k r hmem
    simp only [validate_group_first] at hmem
    rw [mem_sortPairs] at hmem
    obtain ⟨g, hg, heq⟩ := List.mem_map.mp hmem
    have hk : g.1 = k := congrArg Prod.fst heq
    have hr : g.2.headD [] = r := congrArg Prod.snd heq
    rw [← hr, ← hk, gvalues_of_mem_groupPairs validate_groupKey pairs g hg]
  · intro k
    constructor
    · rintro ⟨r, hmem⟩
      simp only [validate_group_mean] at hmem
      rw [mem_sortPairs] at hmem
      obtain ⟨g, hg, heq⟩ := List.mem_map.mp hmem
      have hk : g.1 = k := congrArg Prod.fst heq
      rw [← hk]
      exact (mem_fst_groupPairs validate_groupKey pairs g.1).mp
        (List.mem_map_of_mem Prod.fst hg)
    · intro h
      have hk := (mem_fst_groupPairs validate_groupKey pairs k).mpr h
      obtain ⟨g, hg, hk'⟩ := List.mem_map.mp hk
      refine ⟨meanRows g.2, ?_⟩
      simp only [validate_group_mean]
      rw [mem_sortPairs]
      exact List.mem_map.mpr ⟨g, hg, by rw [hk']⟩
  · intro rs L j h hj
    exact getD_meanRows rs L j h hj

theorem claim_C5_witness :
    List.Sorted (fun a b : String × List ℚ => a.1 ≤ b.1)
      (validate_group_mean [("a-b-c", [1, 3]), ("x-y", [5, 5]), ("a-b-d", [3, 5])]) ∧
    meanRows [[1, 3], [3, 5]] = meanRows
      (([(("a-b-c" : String), ([1, 3] : List ℚ)), ("x-y", [5, 5]), ("a-b-d", [3, 5])].filter
        fun p => decide (validate_groupKey p.1 = "a-b")).map Prod.snd) ∧
    meanRows [[1, 3], [3, 5]] = [2, 4] :=
  ⟨(claim_C5 [("a-b-c", [1, 3]), ("x-y", [5, 5]), ("a-b-d", [3, 5])]).1,
   (claim_C5 [("a-b-c", [1, 3]), ("x-y", [5, 5]), ("a-b-d", [3, 5])]).2.2.1 "a-b"
     (meanRows [[1, 3], [3, 5]]) (by exact List.mem_cons_self _ _),
   by norm_num [meanRows, sumRows]⟩

/-! ### AUC lemmas -/

theorem mem_validate_aucSamples (tcol : List ℚ) (j : Nat) :
    j ∈ validate_aucSamples tcol ↔
      j < tcol.length ∧ (tcol.getD j 0 = 0 ∨ tcol.getD j 0 = 1) := by
  simp only [validate_aucSamples, validate_whereEq, List.mem_append, List.mem_filter,
    List.mem_range, decide_eq_true_eq]
  tauto

theorem getD_validate_classAucs (roc : List ℚ → List ℚ → Except Unit ℚ)
    (targets predictions : List (List ℚ)) (i n_tasks : Nat) (hi : i < n_tasks) :
    (validate_classAucs roc targets predictions n_tasks).getD i 0 =
      validate_classAuc roc targets predictions i := by
  unfold validate_classAucs
  rw [List.getD_eq_getElem?_getD, List.getElem?_map, List.getElem?_range hi]
  simp

/-- C4: In `validate`, the per-class AUC appended to `class_aucs` for class
`i` equals exactly 1/2 when the stored target column does not contain both a
0 and a 1 (guard branch) or when `roc_auc_score` raises ValueError (except
branch), and otherwise equals the ROC-AUC score computed over the samples
whose stored target is 0 or 1 (the concatenated index lists of zeros and
ones, which contain exactly the indices whose column value is 0 or 1). -/
theorem claim_C4 (roc : List ℚ → List ℚ → Except Unit ℚ)
    (targets predictions : List (List ℚ)) (i n_tasks : Nat) (hi : i < n_tasks) :
    (¬ ((0 : ℚ) ∈ colAt targets i ∧ (1 : ℚ) ∈ colAt targets i) →
      (validate_classAucs roc targets predictions n_tasks).getD i 0 = 1 / 2) ∧
    (∀ er : Unit, (0 : ℚ) ∈ colAt targets i → (1 : ℚ) ∈ colAt targets i →
      roc ((validate_aucSamples (colAt targets i)).map fun j => (colAt targets i).getD j 0)
          ((validate_aucSamples (colAt targets i)).map fun j => (colAt predictions i).getD j 0) =
        Except.error er →
      (validate_classAucs roc targets predictions n_tasks).getD i 0 = 1 / 2) ∧
    (∀ v : ℚ, (0 : ℚ) ∈ colAt targets i → (1 : ℚ) ∈ colAt targets i →
      roc ((validate_aucSamples (colAt targets i)).map fun j => (colAt targets i).getD j 0)
          ((validate_aucSamples (colAt targets i)).map fun j => (colAt predictions i).getD j 0) =
        Except.ok v →
      (validate_classAucs roc targets predictions n_tasks).getD i 0 = v) ∧
    (∀ j, j ∈ validate_aucSamples (colAt targets i) ↔
      j < (colAt targets i).length ∧
        ((colAt targets i).getD j 0 = 0 ∨ (colAt targets i).getD j 0 = 1)) := by
  have hguard : (((colAt targets i).any fun x => decide (x = 0)) &&
      ((colAt targets i).any fun x => decide (x = 1))) = true ↔
      (0 : ℚ) ∈ colAt targets i ∧ (1 : ℚ) ∈ colAt targets i := by
    simp only [Bool.and_eq_true, List.any_eq_true, decide_eq_true_eq]
    constructor
    · rintro ⟨⟨x, hx, rfl⟩, ⟨y, hy, rfl⟩⟩
      exact ⟨hx, hy⟩
    · rintro ⟨h0, h1⟩
      exact ⟨⟨0, h0, rfl⟩, ⟨1, h1, rfl⟩⟩
  refine ⟨?_, ?_, ?_, fun j => mem_validate_aucSamples (colAt targets i) j⟩
  · intro h
    rw [getD_validate_classAucs roc targets predictions i n_tasks hi]
    unfold validate_classAuc
    rw [if_neg]
    intro hcond
    exact h (hguard.mp hcond)
  · intro er h0 h1 herr
    rw [getD_validate_classAucs roc targets predictions i n_tasks hi]
    unfold validate_classAuc
    rw [if_pos (hguard.mpr ⟨h0, h1⟩)]
    simp only [herr]
  · intro v h0 h1 hok
    rw [getD_validate_classAucs roc targets predictions i n_tasks hi]
    unfold validate_classAuc
    rw [if_pos (hguard.mpr ⟨h0, h1⟩)]
    simp only [hok]

theorem claim_C4_witness :
    (validate_classAucs (fun _ _ => Except.ok (7 : ℚ)) [[0], [1]] [[5], [9]] 1).getD 0 0 = 7 ∧
    (validate_classAucs (fun _ _ => Except.error ()) [[0], [1]] [[5], [9]] 1).getD 0 0 = 1 / 2 ∧
    (validate_classAucs (fun _ _ => Except.ok (7 : ℚ)) [[0], [0]] [[5], [9]] 1).getD 0 0 = 1 / 2 ∧
    ((0 : Nat) ∈ validate_aucSamples (colAt [[0], [1]] 0) ↔
      0 < (colAt [[0], [1]] 0).length ∧
        ((colAt ([[0], [1]] : List (List ℚ)) 0).getD 0 0 = 0 ∨
          (colAt ([[0], [1]] : List (List ℚ)) 0).getD 0 0 = 1)) :=
  ⟨(claim_C4 (fun _ _ => Except.ok (7 : ℚ)) [[0], [1]] [[5], [9]] 0 1 (by decide)).2.2.1 7
     (by decide) (by decide) rfl,
   (claim_C4 (fun _ _ => Except.error ()) [[0], [1]] [[5], [9]] 0 1 (by decide)).2.1 ()
     (by decide) (by decide) rfl,
   (claim_C4 (fun _ _ => Except.ok (7 : ℚ)) [[0], [0]] [[5], [9]] 0 1 (by decide)).1
     (by decide),
   (claim_C4 (fun _ _ => Except.ok (7 : ℚ)) [[0], [1]] [[5], [9]] 0 1 (by decide)).2.2.2 0⟩

theorem getD_map_lt {α β : Type} (f : α → β) (l : List α) (j : Nat) (hj : j < l.length)
    (d : β) (d' : α) : (l.map f).getD j d = f (l.getD j d') := by
  rw [List.getD_eq_getElem?_getD, List.getElem?_map, List.getElem?_eq_getElem hj,
    List.getD_eq_getElem l d' hj]
  rfl

/-- C8: In `validate` every stored target value is the raw target rescaled by
`t/2 + 0.5`; a class's AUC sample set contains exactly the indices whose
rescaled target is 0 or 1 (equivalently, whose raw target is -1 or +1), so a
sample with raw target 0 (stored as 1/2) is excluded. -/
theorem claim_C8 (raw : List (List ℚ)) (i j : Nat) (hj : j < raw.length)
    (hi : i < (raw.getD j []).length) :
    (colAt (validate_storeTargets raw) i).getD j 0 = (raw.getD j []).getD i 0 / 2 + 1 / 2 ∧
    (j ∈ validate_aucSamples (colAt (validate_storeTargets raw) i) ↔
      ((raw.getD j []).getD i 0 = -1 ∨ (raw.getD j []).getD i 0 = 1)) ∧
    ((raw.getD j []).getD i 0 = 0 →
      j ∉ validate_aucSamples (colAt (validate_storeTargets raw) i)) := by
  have hstlen : (validate_storeTargets raw).length = raw.length := by
    simp [validate_storeTargets]
  have hj' : j < (validate_storeTargets raw).length := by rw [hstlen]; exact hj
  have h1 : (colAt (validate_storeTargets raw) i).getD j 0 =
      (raw.getD j []).getD i 0 / 2 + 1 / 2 := by
    show ((validate_storeTargets raw).map fun row => row.getD i 0).getD j 0 = _
    rw [getD_map_lt (fun row : List ℚ => row.getD i 0) (validate_storeTargets raw) j hj' 0 []]
    show ((raw.map fun row => row.map fun t => t / 2 + 1 / 2).getD j []).getD i 0 = _
    rw [getD_map_lt (fun row : List ℚ => row.map fun t => t / 2 + 1 / 2) raw j hj [] []]
    rw [getD_map_lt (fun t : ℚ => t / 2 + 1 / 2) (raw.getD j []) i hi 0 0]
  have hclen : (colAt (validate_storeTargets raw) i).length = raw.length := by
    simp [colAt, validate_storeTargets]
  have hiff : j ∈ validate_aucSamples (colAt (validate_storeTargets raw) i) ↔
      ((raw.getD j []).getD i 0 = -1 ∨ (raw.getD j []).getD i 0 = 1) := by
    rw [mem_validate_aucSamples, h1, hclen]
    constructor
    · rintro ⟨-, h | h⟩
      · left; linarith
      · right; linarith
    · rintro (h | h)
      · exact ⟨hj, Or.inl (by rw [h]; norm_num)⟩
      · exact ⟨hj, Or.inr (by rw [h]; norm_num)⟩
  refine ⟨h1, hiff, ?_⟩
  intro h0 hmem
  rcases hiff.mp hmem with h | h <;> rw [h0] at h <;> norm_num at h

theorem claim_C8_witness :
    (0 : Nat) ∈ validate_aucSamples (colAt (validate_storeTargets [[(1 : ℚ)], [0]]) 0) ∧
    (1 : Nat) ∉ validate_aucSamples (colAt (validate_storeTargets [[(1 : ℚ)], [0]]) 0) :=
  ⟨(claim_C8 [[(1 : ℚ)], [0]] 0 0 (by decide) (by decide)).2.1.mpr (Or.inr (by decide)),
   (claim_C8 [[(1 : ℚ)], [0]] 0 1 (by decide) (by decide)).2.2 (by decide)⟩

/-- C6: `adjust_cyclic_annealing_lr` returns the initial learning rate at
every epoch that is a multiple of the (positive) cycle length, the start of
a cycle. -/
theorem claim_C6 (epoch cycle_length : Nat) (initial_lr : ℝ)
    (_hc : 0 < cycle_length) (h : cycle_length ∣ epoch) :
    adjust_cyclic_annealing_lr epoch initial_lr cycle_length = initial_lr := by
  obtain ⟨k, rfl⟩ := h
  unfold adjust_cyclic_annealing_lr
  rw [Nat.mul_mod_right]
  norm_num

theorem claim_C6_witness :
    (0 < 2) ∧ ((2 : Nat) ∣ 4) ∧ adjust_cyclic_annealing_lr 4 (5 : ℝ) 2 = 5 :=
  ⟨by norm_num, by norm_num, claim_C6 4 2 5 (by norm_num) (by norm_num)⟩

/-! ### Epoch-body closed forms -/

theorem epochBody_interrupt (cfg : MainCfg) (e : Nat) (st : LoopSt)
    (he : cfg.interrupt = some e) :
    epochBody cfg e st = ([], { st with epochBound := some e }, some PyError.interrupted) := by
  unfold epochBody
  rw [if_pos he]

theorem epochBody_spec_ens (cfg : MainCfg) (ep : EnsembleProps) (e : Nat) (st : LoopSt)
    (hne : cfg.interrupt ≠ some e) (hv : cfg.has_val = true)
    (hep : cfg.ensemble_properties = some ep)
    (hrec : ep.ensemble_type = "deep_ensemble" ∨ ep.ensemble_type = "snapshot_ensemble") :
    epochBody cfg e st =
      (Event.train e :: Event.saveCheckpoint (cfg.perf e) (decide (cfg.perf e > st.best)) ::
        (if (e + 1) ∈ checkpointsList ep.cycle_length ep.ensemble_size then
          Event.saveEnsembleCheckpoint (cfg.perf e) st.m ::
            (if ep.ensemble_type = "deep_ensemble" then [Event.reInitialiseModel] else [])
        else []),
       ⟨max (cfg.perf e) st.best,
        st.m + (if (e + 1) ∈ checkpointsList ep.cycle_length ep.ensemble_size then 1 else 0),
        some (cfg.perf e), some e⟩,
       none) := by
  unfold epochBody
  rw [if_neg hne]
  simp only [hep, hv, if_pos hrec, ite_true]
  by_cases hck : (e + 1) ∈ checkpointsList ep.cycle_length ep.ensemble_size
  · rw [if_pos hck, if_pos hck, if_pos hck]
    by_cases hdeep : ep.ensemble_type = "deep_ensemble"
    · simp [hdeep]
    · simp [hdeep]
  · rw [if_neg hck, if_neg hck, if_neg hck]
    simp

theorem epochBody_spec_noens (cfg : MainCfg) (e : Nat) (st : LoopSt)
    (hne : cfg.interrupt ≠ some e) (hep : cfg.ensemble_properties = none) :
    epochBody cfg e st =
      (Event.train e :: (if cfg.has_val then
          [Event.saveCheckpoint (cfg.perf e) (decide (cfg.perf e > st.best))] else []),
       ⟨if cfg.has_val then max (cfg.perf e) st.best else st.best, st.m,
        if cfg.has_val then some (cfg.perf e) else st.perfBound, some e⟩,
       none) := by
  unfold epochBody
  rw [if_neg hne]
  simp only [hep]
  by_cases hv : cfg.has_val <;> simp [hv]

theorem epochBody_spec_unrec (cfg : MainCfg) (ep : EnsembleProps) (e : Nat) (st : LoopSt)
    (hne : cfg.interrupt ≠ some e) (hep : cfg.ensemble_properties = some ep)
    (hrec : ¬(ep.ensemble_type = "deep_ensemble" ∨ ep.ensemble_type = "snapshot_ensemble")) :
    epochBody cfg e st =
      (Event.train e :: (if cfg.has_val then
          [Event.saveCheckpoint (cfg.perf e) (decide (cfg.perf e > st.best))] else []),
       ⟨if cfg.has_val then max (cfg.perf e) st.best else st.best, st.m,
        if cfg.has_val then some (cfg.perf e) else st.perfBound, some e⟩,
       none) := by
  unfold epochBody
  rw [if_neg hne]
  simp only [hep, if_neg hrec]
  by_cases hv : cfg.has_val <;> simp [hv]

theorem epochBody_err_none (cfg : MainCfg) (e : Nat) (st : LoopSt)
    (hne : cfg.interrupt ≠ some e)
    (hok : cfg.has_val = true ∨ cfg.ensemble_properties = none) :
    (epochBody cfg e st).2.2 = none := by
  rcases hep : cfg.ensemble_properties with - | ep
  · rw [epochBody_spec_noens cfg e st hne hep]
  · rcases hok with hv | hnone
    · by_cases hrec : ep.ensemble_type = "deep_ensemble" ∨ ep.ensemble_type = "snapshot_ensemble"
      · rw [epochBody_spec_ens cfg ep e st hne hv hep hrec]
      · rw [epochBody_spec_unrec cfg ep e st hne hep hrec]
    · rw [hep] at hnone
      cases hnone

theorem trainedEpochs_epochBody (cfg : MainCfg) (e : Nat) (st : LoopSt)
    (hne : cfg.interrupt ≠ some e) :
    trainedEpochs (epochBody cfg e st).1 = [e] := by
  rcases hep : cfg.ensemble_properties with - | ep
  · rw [epochBody_spec_noens cfg e st hne hep]
    split <;> simp [trainedEpochs, isTrain]
  · by_cases hrec : ep.ensemble_type = "deep_ensemble" ∨ ep.ensemble_type = "snapshot_ensemble"
    · by_cases hv : cfg.has_val
      · rw [epochBody_spec_ens cfg ep e st hne hv hep hrec]
        split_ifs <;> simp [trainedEpochs, isTrain]
      · -- no validation split: unfold directly, the ensemble branch may stop with an
        -- unbound `performance`, but `train` has already run
        unfold epochBody
        rw [if_neg hne]
        simp only [hep, if_pos hrec, hv]
        simp only [Bool.false_eq_true, if_false]
        split_ifs <;> cases hpb : st.perfBound <;> simp [hpb, trainedEpochs, isTrain]
    · rw [epochBody_spec_unrec cfg ep e st hne hep hrec]
      split <;> simp [trainedEpochs, isTrain]

/-! ### Loop-level lemmas -/

theorem trainedEpochs_append (a b : List Event) :
    trainedEpochs (a ++ b) = trainedEpochs a ++ trainedEpochs b :=
  List.filterMap_append a b isTrain

theorem ensembleMs_append (a b : List Event) :
    ensembleMs (a ++ b) = ensembleMs a ++ ensembleMs b :=
  List.filterMap_append a b isEnsembleM

theorem savedCheckpoints_append (a b : List Event) :
    savedCheckpoints (a ++ b) = savedCheckpoints a ++ savedCheckpoints b :=
  List.filterMap_append a b isSavedCk

theorem runEpochs_good (cfg : MainCfg) (hint : cfg.interrupt = none)
    (hok : cfg.has_val = true ∨ cfg.ensemble_properties = none) :
    ∀ (fuel e : Nat) (st : LoopSt),
      (runEpochs cfg e fuel st).2.2 = none ∧
      trainedEpochs (runEpochs cfg e fuel st).1 = List.range' e fuel := by
  intro fuel
  induction fuel with
  | zero => intro e st; exact ⟨rfl, rfl⟩
  | succ n ih =>
    intro e st
    have hne : cfg.interrupt ≠ some e := by simp [hint]
    have herr := epochBody_err_none cfg e st hne hok
    have htr := trainedEpochs_epochBody cfg e st hne
    rcases hb : epochBody cfg e st with ⟨evs, st1, err⟩
    rw [hb] at herr htr
    obtain rfl : err = none := herr
    have htr' : trainedEpochs evs = [e] := htr
    rcases hr : runEpochs cfg (e + 1) n st1 with ⟨evs2, st2, err2⟩
    have ihh := ih (e + 1) st1
    rw [hr] at ihh
    obtain ⟨h1, h2⟩ := ihh
    obtain rfl : err2 = none := h1
    have h2' : trainedEpochs evs2 = List.range' (e + 1) n := h2
    have hstep : runEpochs cfg e (n + 1) st = (evs ++ evs2, st2, none) := by
      simp only [runEpochs, hb, hr]
    rw [hstep]
    refine ⟨rfl, ?_⟩
    show trainedEpochs (evs ++ evs2) = _
    rw [trainedEpochs_append, htr', h2', List.range'_succ]
    rfl

theorem ensembleMs_epochBody (cfg : MainCfg) (ep : EnsembleProps) (e : Nat) (st : LoopSt)
    (hne : cfg.interrupt ≠ some e) (hv : cfg.has_val = true)
    (hep : cfg.ensemble_properties = some ep)
    (hrec : ep.ensemble_type = "deep_ensemble" ∨ ep.ensemble_type = "snapshot_ensemble") :
    ensembleMs (epochBody cfg e st).1 =
      (if (e + 1) ∈ checkpointsList ep.cycle_length ep.ensemble_size then [st.m] else []) ∧
    (epochBody cfg e st).2.1.m =
      st.m + (if (e + 1) ∈ checkpointsList ep.cycle_length ep.ensemble_size then 1 else 0) := by
  rw [epochBody_spec_ens cfg ep e st hne hv hep hrec]
  constructor
  · split_ifs <;> simp [ensembleMs, isEnsembleM]
  · rfl

theorem runEpochs_ensembleMs (cfg : MainCfg) (ep : EnsembleProps)
    (hint : cfg.interrupt = none) (hv : cfg.has_val = true)
    (hep : cfg.ensemble_properties = some ep)
    (hrec : ep.ensemble_type = "deep_ensemble" ∨ ep.ensemble_type = "snapshot_ensemble") :
    ∀ (fuel e : Nat) (st : LoopSt),
      ensembleMs (runEpochs cfg e fuel st).1 =
        List.range' st.m ((List.range' e fuel).countP fun x =>
          decide ((x + 1) ∈ checkpointsList ep.cycle_length ep.ensemble_size)) ∧
      (runEpochs cfg e fuel st).2.1.m =
        st.m + ((List.range' e fuel).countP fun x =>
          decide ((x + 1) ∈ checkpointsList ep.cycle_length ep.ensemble_size)) := by
  intro fuel
  induction fuel with
  | zero => intro e st; exact ⟨rfl, rfl⟩
  | succ n ih =>
    intro e st
    have hne : cfg.interrupt ≠ some e := by simp [hint]
    have herr := epochBody_err_none cfg e st hne (Or.inl hv)
    have hms := ensembleMs_epochBody cfg ep e st hne hv hep hrec
    rcases hb : epochBody cfg e st with ⟨evs, st1, err⟩
    rw [hb] at herr hms
    obtain rfl : err = none := herr
    obtain ⟨hms1, hms2⟩ := hms
    rcases hr : runEpochs cfg (e + 1) n st1 with ⟨evs2, st2, err2⟩
    have ihh := ih (e + 1) st1
    rw [hr] at ihh
    obtain ⟨ih1, ih2⟩ := ihh
    have hstep : runEpochs cfg e (n + 1) st = (evs ++ evs2, st2, err2) := by
      simp only [runEpochs, hb, hr]
    rw [hstep]
    have hm1 : st1.m = st.m +
        (if (e + 1) ∈ checkpointsList ep.cycle_length ep.ensemble_size then 1 else 0) := hms2
    have hcnt : (List.range' e (n + 1)).countP (fun x =>
        decide ((x + 1) ∈ checkpointsList ep.cycle_length ep.ensemble_size)) =
        (if (e + 1) ∈ checkpointsList ep.cycle_length ep.ensemble_size then 1 else 0) +
        (List.range' (e + 1) n).countP (fun x =>
          decide ((x + 1) ∈ checkpointsList ep.cycle_length ep.ensemble_size)) := by
    -- countP over `e :: range' (e+1) n`
      rw [List.range'_succ, List.countP_cons]
      by_cases hck : (e + 1) ∈ checkpointsList ep.cycle_length ep.ensemble_size <;>
        simp [hck, Nat.add_comm]
    constructor
    · show ensembleMs (evs ++ evs2) = _
      rw [ensembleMs_append, hms1, ih1, hcnt, hm1]
      by_cases hck : (e + 1) ∈ checkpointsList ep.cycle_length ep.ensemble_size
      · rw [if_pos hck, if_pos hck]
        rw [Nat.add_comm 1, List.range'_succ]
        rfl
      · rw [if_neg hck, if_neg hck]
        simp
    · show st2.m = _
      rw [ih2, hm1, hcnt]
      omega

theorem savedCheckpoints_epochBody (cfg : MainCfg) (e : Nat) (st : LoopSt)
    (hne : cfg.interrupt ≠ some e) (hv : cfg.has_val = true) :
    savedCheckpoints (epochBody cfg e st).1 =
      [(cfg.perf e, decide (cfg.perf e > st.best))] ∧
    (epochBody cfg e st).2.1.best = max (cfg.perf e) st.best := by
  rcases hep : cfg.ensemble_properties with - | ep
  · rw [epochBody_spec_noens cfg e st hne hep]
    constructor
    · simp [hv, savedCheckpoints, isSavedCk]
    · simp [hv]
  · by_cases hrec : ep.ensemble_type = "deep_ensemble" ∨ ep.ensemble_type = "snapshot_ensemble"
    · rw [epochBody_spec_ens cfg ep e st hne hv hep hrec]
      constructor
      · split_ifs <;> simp [savedCheckpoints, isSavedCk]
      · rfl
    · rw [epochBody_spec_unrec cfg ep e st hne hep hrec]
      constructor
      · simp [hv, savedCheckpoints, isSavedCk]
      · simp [hv]

theorem bestAfter_succ_le (perf : Nat → ℚ) :
    ∀ (k e : Nat) (b : ℚ), bestAfter perf e b k ≤ bestAfter perf e b (k + 1) := by
  intro k
  induction k with
  | zero =>
    intro e b
    show b ≤ max (perf e) b
    exact le_max_right _ _
  | succ n ih =>
    intro e b
    show bestAfter perf (e + 1) (max (perf e) b) n ≤
      bestAfter perf (e + 1) (max (perf e) b) (n + 1)
    exact ih (e + 1) (max (perf e) b)

theorem runEpochs_savedCheckpoints (cfg : MainCfg) (hint : cfg.interrupt = none)
    (hv : cfg.has_val = true) :
    ∀ (fuel e : Nat) (st : LoopSt),
      savedCheckpoints (runEpochs cfg e fuel st).1 =
        (List.range fuel).map (fun j => (cfg.perf (e + j),
          decide (cfg.perf (e + j) > bestAfter cfg.perf e st.best j))) ∧
      (runEpochs cfg e fuel st).2.1.best = bestAfter cfg.perf e st.best fuel := by
  intro fuel
  induction fuel with
  | zero => intro e st; exact ⟨rfl, rfl⟩
  | succ n ih =>
    intro e st
    have hne : cfg.interrupt ≠ some e := by simp [hint]
    have herr := epochBody_err_none cfg e st hne (Or.inl hv)
    have hsv := savedCheckpoints_epochBody cfg e st hne hv
    rcases hb : epochBody cfg e st with ⟨evs, st1, err⟩
    rw [hb] at herr hsv
    obtain rfl : err = none := herr
    obtain ⟨hsv1, hsv2⟩ := hsv
    have hbest : st1.best = max (cfg.perf e) st.best := hsv2
    rcases hr : runEpochs cfg (e + 1) n st1 with ⟨evs2, st2, err2⟩
    have ihh := ih (e + 1) st1
    rw [hr] at ihh
    obtain ⟨ih1, ih2⟩ := ihh
    have hstep : runEpochs cfg e (n + 1) st = (evs ++ evs2, st2, err2) := by
      simp only [runEpochs, hb, hr]
    rw [hstep]
    constructor
    · show savedCheckpoints (evs ++ evs2) = _
      rw [savedCheckpoints_append, hsv1, ih1, hbest, List.singleton_append]
      rw [List.range_succ_eq_map, List.map_cons, List.map_map]
      congr 1
      apply List.map_congr_left
      intro a ha
      simp only [Function.comp_apply]
      have harith : e + 1 + a = e + (a + 1) := by omega
      rw [harith]
      rfl
    · show st2.best = _
      rw [ih2, hbest]
      rfl

theorem mem_epochBody_cases (cfg : MainCfg) (e : Nat) (st : LoopSt) (ev : Event)
    (h : ev ∈ (epochBody cfg e st).1) :
    ev = Event.train e ∨
    (∃ a b, ev = Event.saveCheckpoint a b) ∨
    (∃ a m, ev = Event.saveEnsembleCheckpoint a m) ∨
    (ev = Event.reInitialiseModel ∧
      ∃ ep, cfg.ensemble_properties = some ep ∧ ep.ensemble_type = "deep_ensemble") := by
  by_cases hi : cfg.interrupt = some e
  · rw [epochBody_interrupt cfg e st hi] at h
    simp at h
  · rcases hep : cfg.ensemble_properties with - | ep
    · rw [epochBody_spec_noens cfg e st hi hep] at h
      by_cases hv : cfg.has_val <;> simp [hv] at h
      · rcases h with rfl | rfl
        · exact Or.inl rfl
        · exact Or.inr (Or.inl ⟨_, _, rfl⟩)
      · exact Or.inl h
    · by_cases hrec : ep.ensemble_type = "deep_ensemble" ∨ ep.ensemble_type = "snapshot_ensemble"
      · by_cases hv : cfg.has_val
        · rw [epochBody_spec_ens cfg ep e st hi hv hep hrec] at h
          by_cases hck : (e + 1) ∈ checkpointsList ep.cycle_length ep.ensemble_size
          · by_cases hdeep : ep.ensemble_type = "deep_ensemble"
            · simp [hck, hdeep] at h
              rcases h with rfl | rfl | rfl | rfl
              · exact Or.inl rfl
              · exact Or.inr (Or.inl ⟨_, _, rfl⟩)
              · exact Or.inr (Or.inr (Or.inl ⟨_, _, rfl⟩))
              · exact Or.inr (Or.inr (Or.inr ⟨rfl, ep, rfl, hdeep⟩))
            · simp [hck, hdeep] at h
              rcases h with rfl | rfl | rfl
              · exact Or.inl rfl
              · exact Or.inr (Or.inl ⟨_, _, rfl⟩)
              · exact Or.inr (Or.inr (Or.inl ⟨_, _, rfl⟩))
          · simp [hck] at h
            rcases h with rfl | rfl
            · exact Or.inl rfl
            · exact Or.inr (Or.inl ⟨_, _, rfl⟩)
        · unfold epochBody at h
          rw [if_neg hi] at h
          simp only [hep, if_pos hrec, hv, Bool.false_eq_true, if_false] at h
          by_cases hck : (e + 1) ∈ checkpointsList ep.cycle_length ep.ensemble_size
          · rcases hpb : st.perfBound with - | pv
            · simp [hck, hpb] at h
              exact Or.inl h
            · by_cases hdeep : ep.ensemble_type = "deep_ensemble"
              · simp [hck, hpb, hdeep] at h
                rcases h with rfl | rfl | rfl
                · exact Or.inl rfl
                · exact Or.inr (Or.inr (Or.inl ⟨_, _, rfl⟩))
                · exact Or.inr (Or.inr (Or.inr ⟨rfl, ep, rfl, hdeep⟩))
              · simp [hck, hpb, hdeep] at h
                rcases h with rfl | rfl
                · exact Or.inl rfl
                · exact Or.inr (Or.inr (Or.inl ⟨_, _, rfl⟩))
          · simp [hck] at h
            exact Or.inl h
      · rw [epochBody_spec_unrec cfg ep e st hi hep hrec] at h
        by_cases hv : cfg.has_val <;> simp [hv] at h
        · rcases h with rfl | rfl
          · exact Or.inl rfl
          · exact Or.inr (Or.inl ⟨_, _, rfl⟩)
        · exact Or.inl h

theorem abort_not_mem_runEpochs (cfg : MainCfg) (p : ℚ) (b : Bool) :
    ∀ (fuel e : Nat) (st : LoopSt),
      Event.saveAbortCheckpoint p b ∉ (runEpochs cfg e fuel st).1 := by
  intro fuel
  induction fuel with
  | zero => intro e st h; simp [runEpochs] at h
  | succ n ih =>
    intro e st h
    rcases hb : epochBody cfg e st with ⟨evs, st1, err⟩
    have hbody : Event.saveAbortCheckpoint p b ∉ evs := by
      intro hmem
      have := mem_epochBody_cases cfg e st _ (by rw [hb]; exact hmem)
      rcases this with h' | ⟨a, b', h'⟩ | ⟨a, m', h'⟩ | ⟨h', -⟩ <;> cases h'
    cases err with
    | some er =>
      have hstep : runEpochs cfg e (n + 1) st = (evs, st1, some er) := by
        simp only [runEpochs, hb]
      rw [hstep] at h
      exact hbody h
    | none =>
      rcases hr : runEpochs cfg (e + 1) n st1 with ⟨evs2, st2, err2⟩
      have hstep : runEpochs cfg e (n + 1) st = (evs ++ evs2, st2, err2) := by
        simp only [runEpochs, hb, hr]
      rw [hstep] at h
      rcases List.mem_append.mp h with h' | h'
      · exact hbody h'
      · have := ih (e + 1) st1
        rw [hr] at this
        exact this h'

theorem reInit_not_mem_runEpochs (cfg : MainCfg)
    (hnd : ∀ ep, cfg.ensemble_properties = some ep → ep.ensemble_type ≠ "deep_ensemble") :
    ∀ (fuel e : Nat) (st : LoopSt),
      Event.reInitialiseModel ∉ (runEpochs cfg e fuel st).1 := by
  intro fuel
  induction fuel with
  | zero => intro e st h; simp [runEpochs] at h
  | succ n ih =>
    intro e st h
    rcases hb : epochBody cfg e st with ⟨evs, st1, err⟩
    have hbody : Event.reInitialiseModel ∉ evs := by
      intro hmem
      have := mem_epochBody_cases cfg e st _ (by rw [hb]; exact hmem)
      rcases this with h' | ⟨a, b', h'⟩ | ⟨a, m', h'⟩ | ⟨-, ep, hep, hdeep⟩
      · cases h'
      · cases h'
      · cases h'
      · exact hnd ep hep hdeep
    cases err with
    | some er =>
      have hstep : runEpochs cfg e (n + 1) st = (evs, st1, some er) := by
        simp only [runEpochs, hb]
      rw [hstep] at h
      exact hbody h
    | none =>
      rcases hr : runEpochs cfg (e + 1) n st1 with ⟨evs2, st2, err2⟩
      have hstep : runEpochs cfg e (n + 1) st = (evs ++ evs2, st2, err2) := by
        simp only [runEpochs, hb, hr]
      rw [hstep] at h
      rcases List.mem_append.mp h with h' | h'
      · exact hbody h'
      · have := ih (e + 1) st1
        rw [hr] at this
        exact this h'

theorem mainBody_noens (cfg : MainCfg) (hep : cfg.ensemble_properties = none) :
    mainBody cfg =
      runEpochs cfg cfg.start_epoch (cfg.training_epochs - cfg.start_epoch) (initLoopSt cfg) := by
  unfold mainBody
  simp only [hep]

theorem mainBody_ens (cfg : MainCfg) (ep : EnsembleProps)
    (hep : cfg.ensemble_properties = some ep)
    (hrec : ep.ensemble_type = "deep_ensemble" ∨ ep.ensemble_type = "snapshot_ensemble")
    (hcz : ep.cycle_length ≠ 0) :
    mainBody cfg =
      runEpochs cfg cfg.start_epoch (ep.ensemble_size * ep.cycle_length - cfg.start_epoch)
        { initLoopSt cfg with m := cfg.start_epoch / ep.cycle_length } := by
  unfold mainBody
  simp only [hep]
  rw [if_pos hrec, if_neg hcz]

theorem mainBody_zeroDiv (cfg : MainCfg) (ep : EnsembleProps)
    (hep : cfg.ensemble_properties = some ep)
    (hrec : ep.ensemble_type = "deep_ensemble" ∨ ep.ensemble_type = "snapshot_ensemble")
    (hcz : ep.cycle_length = 0) :
    mainBody cfg = ([], initLoopSt cfg, some PyError.zeroDivisionError) := by
  unfold mainBody
  simp only [hep]
  rw [if_pos hrec, if_pos hcz]

theorem mainBody_unrec (cfg : MainCfg) (ep : EnsembleProps)
    (hep : cfg.ensemble_properties = some ep)
    (hrec : ¬(ep.ensemble_type = "deep_ensemble" ∨ ep.ensemble_type = "snapshot_ensemble")) :
    mainBody cfg = ([], initLoopSt cfg, some (PyError.nameError "total_epochs")) := by
  unfold mainBody
  simp only [hep]
  rw [if_neg hrec]

theorem abort_not_mem_mainBody (cfg : MainCfg) (p : ℚ) (b : Bool) :
    Event.saveAbortCheckpoint p b ∉ (mainBody cfg).1 := by
  rcases hep : cfg.ensemble_properties with - | ep
  · rw [mainBody_noens cfg hep]
    exact abort_not_mem_runEpochs cfg p b _ _ _
  · by_cases hrec : ep.ensemble_type = "deep_ensemble" ∨ ep.ensemble_type = "snapshot_ensemble"
    · by_cases hcz : ep.cycle_length = 0
      · rw [mainBody_zeroDiv cfg ep hep hrec hcz]
        simp
      · rw [mainBody_ens cfg ep hep hrec hcz]
        exact abort_not_mem_runEpochs cfg p b _ _ _
    · rw [mainBody_unrec cfg ep hep hrec]
      simp

theorem reInit_not_mem_mainBody (cfg : MainCfg)
    (hnd : ∀ ep, cfg.ensemble_properties = some ep → ep.ensemble_type ≠ "deep_ensemble") :
    Event.reInitialiseModel ∉ (mainBody cfg).1 := by
  rcases hep : cfg.ensemble_properties with - | ep
  · rw [mainBody_noens cfg hep]
    exact reInit_not_mem_runEpochs cfg hnd _ _ _
  · by_cases hrec : ep.ensemble_type = "deep_ensemble" ∨ ep.ensemble_type = "snapshot_ensemble"
    · by_cases hcz : ep.cycle_length = 0
      · rw [mainBody_zeroDiv cfg ep hep hrec hcz]
        simp
      · rw [mainBody_ens cfg ep hep hrec hcz]
        exact reInit_not_mem_runEpochs cfg hnd _ _ _
    · rw [mainBody_unrec cfg ep hep hrec]
      simp

theorem mem_mainFinally_cases (cfg : MainCfg) (eb tb : Option Nat) (ev : Event)
    (h : ev ∈ (mainFinally cfg eb tb).1) :
    ev = Event.saveAbortCheckpoint (-1) false ∨
    (∃ n, n ∈ cfg.summaryNames ∧ (ev = Event.exportScalars n ∨ ev = Event.closeSummary n)) := by
  rcases eb with - | e
  · simp [mainFinally] at h
  · rcases tb with - | T
    · simp [mainFinally] at h
    · unfold mainFinally at h
      simp only [List.mem_append] at h
      rcases h with h | h
      · split_ifs at h with hne
        · simp at h
          exact Or.inl h
        · simp at h
      · rw [List.mem_flatMap] at h
        obtain ⟨n, hn, hmem⟩ := h
        simp at hmem
        exact Or.inr ⟨n, hn, hmem⟩

theorem mainFinally_filterMap_nil {β : Type} (f : Event → Option β)
    (h1 : ∀ p b, f (Event.saveAbortCheckpoint p b) = none)
    (h2 : ∀ n, f (Event.exportScalars n) = none)
    (h3 : ∀ n, f (Event.closeSummary n) = none) (cfg : MainCfg) (eb tb : Option Nat) :
    ((mainFinally cfg eb tb).1).filterMap f = [] := by
  rw [List.filterMap_eq_nil_iff]
  intro ev hev
  rcases mem_mainFinally_cases cfg eb tb ev hev with rfl | ⟨n, -, rfl | rfl⟩
  · exact h1 _ _
  · exact h2 _
  · exact h3 _

theorem mainRun_eq (cfg : MainCfg) :
    mainRun cfg =
      ((mainBody cfg).1 ++ (mainFinally cfg (mainBody cfg).2.1.epochBound (mainTotal cfg)).1,
        match (mainFinally cfg (mainBody cfg).2.1.epochBound (mainTotal cfg)).2 with
        | some er => some er
        | none => (mainBody cfg).2.2) := by
  unfold mainRun
  rcases hb : mainBody cfg with ⟨tr, st, be⟩
  rcases hf : mainFinally cfg st.epochBound (mainTotal cfg) with ⟨tr2, fe⟩
  simp [hf]

theorem runEpochs_interrupt (cfg : MainCfg) (e : Nat) (he : cfg.interrupt = some e)
    (hok : cfg.has_val = true ∨ cfg.ensemble_properties = none) :
    ∀ (fuel s : Nat) (st : LoopSt), s ≤ e → e < s + fuel →
      (runEpochs cfg s fuel st).2.1.epochBound = some e ∧
      (runEpochs cfg s fuel st).2.2 = some PyError.interrupted := by
  intro fuel
  induction fuel with
  | zero => intro s st h1 h2; omega
  | succ n ih =>
    intro s st h1 h2
    by_cases hse : s = e
    · subst hse
      have hb := epochBody_interrupt cfg s st he
      have hstep : runEpochs cfg s (n + 1) st =
          ([], { st with epochBound := some s }, some PyError.interrupted) := by
        simp only [runEpochs, hb]
      rw [hstep]
      exact ⟨rfl, rfl⟩
    · have hne : cfg.interrupt ≠ some s := by
        rw [he]
        intro hc
        exact hse (Option.some.inj hc).symm
      have herr := epochBody_err_none cfg s st hne hok
      rcases hb : epochBody cfg s st with ⟨evs, st1, err⟩
      rw [hb] at herr
      obtain rfl : err = none := herr
      rcases hr : runEpochs cfg (s + 1) n st1 with ⟨evs2, st2, err2⟩
      have ihh := ih (s + 1) st1 (by omega) (by omega)
      rw [hr] at ihh
      have hstep : runEpochs cfg s (n + 1) st = (evs ++ evs2, st2, err2) := by
        simp only [runEpochs, hb, hr]
      rw [hstep]
      exact ihh

theorem mem_checkpointsList (c size x : Nat) :
    x ∈ checkpointsList c size ↔ ∃ k, 1 ≤ k ∧ k ≤ size ∧ x = c * k := by
  unfold checkpointsList
  rw [List.mem_map]
  constructor
  · rintro ⟨k, hk, rfl⟩
    rw [List.mem_range'_1] at hk
    exact ⟨k, hk.1, by omega, rfl⟩
  · rintro ⟨k, hk1, hk2, rfl⟩
    exact ⟨k, by rw [List.mem_range'_1]; omega, rfl⟩

/-- C3: With a recognised ensemble type the training loop iterates epochs from
`start_epoch` up to (exclusive) `total_epochs = ensemble_size * cycle_length`;
with empty `ensemble_properties` it iterates up to `config.training.epochs`. -/
theorem claim_C3 (cfg : MainCfg) (hint : cfg.interrupt = none) :
    (∀ ep : EnsembleProps, cfg.ensemble_properties = some ep →
      (ep.ensemble_type = "deep_ensemble" ∨ ep.ensemble_type = "snapshot_ensemble") →
      cfg.has_val = true →
      trainedEpochs (mainRun cfg).1 =
        List.range' cfg.start_epoch (ep.ensemble_size * ep.cycle_length - cfg.start_epoch)) ∧
    (cfg.ensemble_properties = none →
      trainedEpochs (mainRun cfg).1 =
        List.range' cfg.start_epoch (cfg.training_epochs - cfg.start_epoch)) := by
  have hfin : ∀ eb tb, trainedEpochs (mainFinally cfg eb tb).1 = [] := fun eb tb =>
    mainFinally_filterMap_nil isTrain (fun _ _ => rfl) (fun _ => rfl) (fun _ => rfl) cfg eb tb
  constructor
  · intro ep hep hrec hv
    rw [mainRun_eq]
    show trainedEpochs ((mainBody cfg).1 ++ _) = _
    rw [trainedEpochs_append, hfin, List.append_nil]
    by_cases hcz : ep.cycle_length = 0
    · rw [mainBody_zeroDiv cfg ep hep hrec hcz, hcz]
      simp [trainedEpochs]
    · rw [mainBody_ens cfg ep hep hrec hcz]
      exact (runEpochs_good cfg hint (Or.inl hv) _ _ _).2
  · intro hep
    rw [mainRun_eq]
    show trainedEpochs ((mainBody cfg).1 ++ _) = _
    rw [trainedEpochs_append, hfin, List.append_nil]
    rw [mainBody_noens cfg hep]
    exact (runEpochs_good cfg hint (Or.inr hep) _ _ _).2

theorem claim_C3_witness :
    trainedEpochs (mainRun cfgSnapshot).1 = List.range' 0 (2 * 2 - 0) ∧
    trainedEpochs (mainRun cfgPlain).1 = List.range' 0 (2 - 0) :=
  ⟨(claim_C3 cfgSnapshot rfl).1 ⟨"snapshot_ensemble", 2, 2⟩ rfl (Or.inr rfl) rfl,
   (claim_C3 cfgPlain rfl).2 rfl⟩

/-- C2: For recognised ensemble types, an ensemble-member checkpoint is saved
exactly at the epochs where `epoch + 1` is one of `cycle_length * 1, ...,
cycle_length * ensemble_size`; the member index starts at
`start_epoch / cycle_length` and is incremented by one at each such save and
at no other time (the saved indices over the whole run form the contiguous
range starting at `start_epoch / cycle_length`). -/
theorem claim_C2 (cfg : MainCfg) (ep : EnsembleProps)
    (hep : cfg.ensemble_properties = some ep)
    (hrec : ep.ensemble_type = "deep_ensemble" ∨ ep.ensemble_type = "snapshot_ensemble")
    (hv : cfg.has_val = true) (hint : cfg.interrupt = none) (hcz : 0 < ep.cycle_length) :
    ensembleMs (mainRun cfg).1 =
      List.range' (cfg.start_epoch / ep.cycle_length)
        ((List.range' cfg.start_epoch (ep.ensemble_size * ep.cycle_length - cfg.start_epoch)).countP
          fun x => decide ((x + 1) ∈ checkpointsList ep.cycle_length ep.ensemble_size)) ∧
    (∀ (e : Nat) (st : LoopSt),
      ensembleMs (epochBody cfg e st).1 =
        (if (e + 1) ∈ checkpointsList ep.cycle_length ep.ensemble_size then [st.m] else []) ∧
      (epochBody cfg e st).2.1.m =
        st.m + (if (e + 1) ∈ checkpointsList ep.cycle_length ep.ensemble_size then 1 else 0)) ∧
    (∀ x : Nat, (x + 1) ∈ checkpointsList ep.cycle_length ep.ensemble_size ↔
      ∃ k, 1 ≤ k ∧ k ≤ ep.ensemble_size ∧ x + 1 = ep.cycle_length * k) := by
  refine ⟨?_, ?_, fun x => mem_checkpointsList ep.cycle_length ep.ensemble_size (x + 1)⟩
  · have hfin : ∀ eb tb, ensembleMs (mainFinally cfg eb tb).1 = [] := fun eb tb =>
      mainFinally_filterMap_nil isEnsembleM (fun _ _ => rfl) (fun _ => rfl) (fun _ => rfl) cfg eb tb
    rw [mainRun_eq]
    show ensembleMs ((mainBody cfg).1 ++ _) = _
    rw [ensembleMs_append, hfin, List.append_nil]
    rw [mainBody_ens cfg ep hep hrec (by omega)]
    exact (runEpochs_ensembleMs cfg ep hint hv hep hrec _ _ _).1
  · intro e st
    have hne : cfg.interrupt ≠ some e := by simp [hint]
    exact ensembleMs_epochBody cfg ep e st hne hv hep hrec

theorem claim_C2_witness :
    ensembleMs (mainRun cfgSnapshot).1 =
      List.range' (0 / 2) ((List.range' 0 (2 * 2 - 0)).countP
        fun x => decide ((x + 1) ∈ checkpointsList 2 2)) ∧
    ((1 + 1) ∈ checkpointsList 2 2 ↔ ∃ k, 1 ≤ k ∧ k ≤ 2 ∧ 1 + 1 = 2 * k) :=
  ⟨(claim_C2 cfgSnapshot ⟨"snapshot_ensemble", 2, 2⟩ rfl (Or.inr rfl) rfl rfl
      (by decide)).1,
   (claim_C2 cfgSnapshot ⟨"snapshot_ensemble", 2, 2⟩ rfl (Or.inr rfl) rfl rfl
      (by decide)).2.2 1⟩

/-- C10: Across the epoch loop `best_performance` is non-decreasing; after
each validation it becomes `max(performance, best_performance)`, and the
checkpoint saved for an epoch is flagged `is_best` exactly when that epoch's
performance strictly exceeds the previous best. -/
theorem claim_C10 (cfg : MainCfg) (T : Nat) (hv : cfg.has_val = true)
    (hint : cfg.interrupt = none) (hT : mainTotal cfg = some T) :
    savedCheckpoints (mainRun cfg).1 =
      (List.range (T - cfg.start_epoch)).map (fun j => (cfg.perf (cfg.start_epoch + j),
        decide (cfg.perf (cfg.start_epoch + j) >
          bestAfter cfg.perf cfg.start_epoch cfg.best_performance j))) ∧
    (∀ k : Nat, bestAfter cfg.perf cfg.start_epoch cfg.best_performance k ≤
      bestAfter cfg.perf cfg.start_epoch cfg.best_performance (k + 1)) ∧
    (∀ (e : Nat) (st : LoopSt), (epochBody cfg e st).2.1.best = max (cfg.perf e) st.best) := by
  refine ⟨?_, fun k => bestAfter_succ_le cfg.perf k cfg.start_epoch cfg.best_performance, ?_⟩
  · have hfin : ∀ eb tb, savedCheckpoints (mainFinally cfg eb tb).1 = [] := fun eb tb =>
      mainFinally_filterMap_nil isSavedCk (fun _ _ => rfl) (fun _ => rfl) (fun _ => rfl) cfg eb tb
    rw [mainRun_eq]
    show savedCheckpoints ((mainBody cfg).1 ++ _) = _
    rw [savedCheckpoints_append, hfin, List.append_nil]
    unfold mainTotal at hT
    rcases hep : cfg.ensemble_properties with - | ep
    · rw [hep] at hT
      obtain rfl : cfg.training_epochs = T := Option.some.inj hT
      rw [mainBody_noens cfg hep]
      exact (runEpochs_savedCheckpoints cfg hint hv _ _ _).1
    · rw [hep] at hT
      by_cases hrec : ep.ensemble_type = "deep_ensemble" ∨ ep.ensemble_type = "snapshot_ensemble"
      · simp only [if_pos hrec, Option.some.injEq] at hT
        subst hT
        by_cases hcz : ep.cycle_length = 0
        · rw [mainBody_zeroDiv cfg ep hep hrec hcz, hcz]
          simp [savedCheckpoints]
        · rw [mainBody_ens cfg ep hep hrec hcz]
          exact (runEpochs_savedCheckpoints cfg hint hv _ _ _).1
      · simp [if_neg hrec] at hT
  · intro e st
    have hne : cfg.interrupt ≠ some e := by simp [hint]
    exact (savedCheckpoints_epochBody cfg e st hne hv).2

theorem claim_C10_witness :
    (epochBody cfgPlain 0 ⟨0, 0, none, none⟩).2.1.best = max (cfgPlain.perf 0) 0 ∧
    bestAfter cfgPlain.perf 0 0 1 ≤ bestAfter cfgPlain.perf 0 0 2 :=
  ⟨(claim_C10 cfgPlain 2 rfl rfl rfl).2.2 0 ⟨0, 0, none, none⟩,
   (claim_C10 cfgPlain 2 rfl rfl rfl).2.1 1⟩

/-- C7: The training loop re-initialises the model only when the ensemble
type is `deep_ensemble` and only at a cycle-boundary epoch (`epoch + 1` in
the checkpoint list); for snapshot ensembles and non-ensemble runs no
re-initialisation event ever occurs, so the model state carries over between
epochs apart from training updates. -/
theorem claim_C7 :
    (∀ (cfg : MainCfg) (ep : EnsembleProps) (e : Nat) (st : LoopSt),
      cfg.ensemble_properties = some ep → ep.ensemble_type = "deep_ensemble" →
      cfg.has_val = true → cfg.interrupt = none →
      (Event.reInitialiseModel ∈ (epochBody cfg e st).1 ↔
        (e + 1) ∈ checkpointsList ep.cycle_length ep.ensemble_size)) ∧
    (∀ cfg : MainCfg,
      (∀ ep, cfg.ensemble_properties = some ep → ep.ensemble_type ≠ "deep_ensemble") →
      Event.reInitialiseModel ∉ (mainRun cfg).1) := by
  constructor
  · intro cfg ep e st hep hdeep hv hint
    have hne : cfg.interrupt ≠ some e := by simp [hint]
    rw [epochBody_spec_ens cfg ep e st hne hv hep (Or.inl hdeep)]
    by_cases hck : (e + 1) ∈ checkpointsList ep.cycle_length ep.ensemble_size <;>
      simp [hck, hdeep]
  · intro cfg hnd h
    rw [mainRun_eq] at h
    rcases List.mem_append.mp h with h' | h'
    · exact reInit_not_mem_mainBody cfg hnd h'
    · rcases mem_mainFinally_cases cfg _ _ _ h' with h'' | ⟨n, -, h'' | h''⟩ <;> cases h''

theorem claim_C7_witness :
    (Event.reInitialiseModel ∈ (epochBody cfgDeep 1 (initLoopSt cfgDeep)).1 ↔
      (1 + 1) ∈ checkpointsList 2 2) ∧
    Event.reInitialiseModel ∉ (mainRun cfgSnapshot).1 :=
  ⟨claim_C7.1 cfgDeep ⟨"deep_ensemble", 2, 2⟩ 1 (initLoopSt cfgDeep) rfl rfl rfl rfl,
   claim_C7.2 cfgSnapshot (fun ep hep => by
     rw [show cfgSnapshot.ensemble_properties = some ⟨"snapshot_ensemble", 2, 2⟩ from rfl]
       at hep
     cases Option.some.inj hep
     decide)⟩

/-- C9: With non-empty `ensemble_properties` of unrecognised type, the try
block of `main` raises NameError for the unassigned `total_epochs` before any
loop iteration (the body trace is empty), and the finally block then raises a
further NameError for the unbound `epoch`, which is the error that escapes
`main`; consequently `main` completes normally only when
`ensemble_properties` is empty or names a recognised ensemble type. -/
theorem claim_C9 :
    (∀ (cfg : MainCfg) (ep : EnsembleProps), cfg.ensemble_properties = some ep →
      ¬(ep.ensemble_type = "deep_ensemble" ∨ ep.ensemble_type = "snapshot_ensemble") →
      (mainBody cfg).2.2 = some (PyError.nameError "total_epochs") ∧
      (mainBody cfg).1 = [] ∧
      (mainRun cfg).2 = some (PyError.nameError "epoch")) ∧
    (∀ cfg : MainCfg, (mainRun cfg).2 = none → ensembleOk cfg) := by
  constructor
  · intro cfg ep hep hrec
    have hb := mainBody_unrec cfg ep hep hrec
    refine ⟨by rw [hb], by rw [hb], ?_⟩
    rw [mainRun_eq, hb]
    rfl
  · intro cfg h
    unfold ensembleOk
    rcases hep : cfg.ensemble_properties with - | ep
    · trivial
    · by_cases hrec : ep.ensemble_type = "deep_ensemble" ∨ ep.ensemble_type = "snapshot_ensemble"
      · exact hrec
      · exfalso
        have hb := mainBody_unrec cfg ep hep hrec
        rw [mainRun_eq, hb] at h
        cases h

theorem claim_C9_witness :
    ((mainBody cfgUnrec).2.2 = some (PyError.nameError "total_epochs") ∧
     (mainBody cfgUnrec).1 = [] ∧
     (mainRun cfgUnrec).2 = some (PyError.nameError "epoch")) ∧
    ensembleOk cfgPlain :=
  ⟨claim_C9.1 cfgUnrec ⟨"bogus", 2, 2⟩ rfl (by decide),
   claim_C9.2 cfgPlain (by decide)⟩

/-- C1 (counterexample to the claim as stated): in a one-epoch run with no
validation split, an exception raised during the (final) epoch of the loop
propagates out of `main` without any `user_abort.pth.tar` checkpoint being
written, because `(epoch + 1) != total_epochs` is false in the finally block. -/
theorem claim_C1_counterexample :
    (mainRun cfgAbortLast).2 = some PyError.interrupted ∧
    Event.saveAbortCheckpoint (-1) false ∉ (mainRun cfgAbortLast).1 := by decide

/-- C1 (amended): for an exception raised while the loop is at epoch `e`, the
exception propagates out of `main`, every summary writer is exported and
closed first, and the abort checkpoint (performance -1, `is_best` false) is
written if and only if `e` is not the final epoch (`e + 1 ≠ total_epochs`). -/
theorem claim_C1_amended (cfg : MainCfg) (e T : Nat)
    (he : cfg.interrupt = some e) (hT : mainTotal cfg = some T)
    (hlo : cfg.start_epoch ≤ e) (hhi : e < T)
    (hok : cfg.has_val = true ∨ cfg.ensemble_properties = none) :
    (mainRun cfg).2 = some PyError.interrupted ∧
    (Event.saveAbortCheckpoint (-1) false ∈ (mainRun cfg).1 ↔ e + 1 ≠ T) ∧
    (∀ n ∈ cfg.summaryNames,
      Event.exportScalars n ∈ (mainRun cfg).1 ∧ Event.closeSummary n ∈ (mainRun cfg).1) := by
  obtain ⟨fuel, st0, hbody, hfuel⟩ :
      ∃ (fuel : Nat) (st0 : LoopSt),
        mainBody cfg = runEpochs cfg cfg.start_epoch fuel st0 ∧
        cfg.start_epoch + fuel = T := by
    unfold mainTotal at hT
    rcases hep : cfg.ensemble_properties with - | ep
    · rw [hep] at hT
      obtain rfl : cfg.training_epochs = T := Option.some.inj hT
      exact ⟨_, _, mainBody_noens cfg hep, by omega⟩
    · rw [hep] at hT
      by_cases hrec : ep.ensemble_type = "deep_ensemble" ∨ ep.ensemble_type = "snapshot_ensemble"
      · simp only [if_pos hrec, Option.some.injEq] at hT
        subst hT
        have hcz : ep.cycle_length ≠ 0 := by
          intro h0
          rw [h0, Nat.mul_zero] at hhi
          omega
        exact ⟨_, _, mainBody_ens cfg ep hep hrec hcz, by omega⟩
      · simp [if_neg hrec] at hT
  rcases hbr : runEpochs cfg cfg.start_epoch fuel st0 with ⟨evs, st1, err⟩
  have hi := runEpochs_interrupt cfg e he hok fuel cfg.start_epoch st0 hlo (by omega)
  rw [hbr] at hi
  obtain ⟨heb, herr⟩ := hi
  have heb' : st1.epochBound = some e := heb
  obtain rfl : err = some PyError.interrupted := herr
  have hbody' : mainBody cfg = (evs, st1, some PyError.interrupted) := by rw [hbody, hbr]
  have hfin : mainFinally cfg st1.epochBound (mainTotal cfg) =
      ((if e + 1 ≠ T then [Event.saveAbortCheckpoint (-1) false] else []) ++
        (cfg.summaryNames.flatMap fun n => [Event.exportScalars n, Event.closeSummary n]),
        none) := by
    rw [heb', hT]
    rfl
  have hrun : mainRun cfg =
      (evs ++ ((if e + 1 ≠ T then [Event.saveAbortCheckpoint (-1) false] else []) ++
        (cfg.summaryNames.flatMap fun n => [Event.exportScalars n, Event.closeSummary n])),
        some PyError.interrupted) := by
    unfold mainRun
    rw [hbody']
    simp only
    rw [hfin]
  rw [hrun]
  have hnb : Event.saveAbortCheckpoint (-1) false ∉ evs := by
    have h2 := abort_not_mem_runEpochs cfg (-1) false fuel cfg.start_epoch st0
    rw [hbr] at h2
    exact h2
  have hnc : Event.saveAbortCheckpoint (-1) false ∉
      (cfg.summaryNames.flatMap fun n => [Event.exportScalars n, Event.closeSummary n]) := by
    intro hmem
    rw [List.mem_flatMap] at hmem
    obtain ⟨n, -, hmem⟩ := hmem
    simp at hmem
  refine ⟨rfl, ⟨?_, ?_⟩, ?_⟩
  · intro hmem
    rcases List.mem_append.mp hmem with h' | h'
    · exact absurd h' hnb
    · rcases List.mem_append.mp h' with h'' | h''
      · intro hne
        rw [if_neg (fun hc : e + 1 ≠ T => hc hne)] at h''
        simp at h''
      · exact absurd h'' hnc
  · intro hne
    exact List.mem_append.mpr (Or.inr (List.mem_append.mpr (Or.inl
      (by rw [if_pos hne]; exact List.mem_singleton_self _))))
  · intro n hn
    constructor
    · refine List.mem_append.mpr (Or.inr (List.mem_append.mpr (Or.inr ?_)))
      rw [List.mem_flatMap]
      exact ⟨n, hn, by simp⟩
    · refine List.mem_append.mpr (Or.inr (List.mem_append.mpr (Or.inr ?_)))
      rw [List.mem_flatMap]
      exact ⟨n, hn, by simp⟩

theorem claim_C1_witness :
    (mainRun cfgAbortMid).2 = some PyError.interrupted ∧
    (Event.saveAbortCheckpoint (-1) false ∈ (mainRun cfgAbortMid).1 ↔ 0 + 1 ≠ 2) ∧
    (Event.exportScalars "train" ∈ (mainRun cfgAbortMid).1 ∧
      Event.closeSummary "train" ∈ (mainRun cfgAbortMid).1) :=
  ⟨(claim_C1_amended cfgAbortMid 0 2 rfl rfl (by decide) (by decide) (Or.inl rfl)).1,
   (claim_C1_amended cfgAbortMid 0 2 rfl rfl (by decide) (by decide) (Or.inl rfl)).2.1,
   (claim_C1_amended cfgAbortMid 0 2 rfl rfl (by decide) (by decide) (Or.inl rfl)).2.2 "train"
     (by decide)⟩
